import Mathlib

/-!
Verification of the clip-discovery engine and its two API route consumers
(`src/app/api/youtube/clips/route.ts`, `src/app/api/youtube/process/route.ts`).

The engine `analyzeTranscriptForClips` lives in `@/lib/youtube`, which is not
part of the shipped sources; it is modelled here from the specification
(sections 3, 4, 6, 7).  The route-handler logic (AI enrichment of the
engine output) is embedded from the TypeScript sources directly.

Times are modelled as rationals; JavaScript arrays as Lean lists.
-/

set_option maxRecDepth 4000

/-- Modelled from the spec: one timed utterance of the transcript
(spec section 3, `TranscriptCue`; missing source `@/lib/youtube`). -/
structure TranscriptCue where
  text : String
  startSeconds : ℚ
  endSeconds : ℚ
deriving Repr, DecidableEq

/-- Modelled from the spec: one scored clip window, with the field names the
route handlers read (`title`, `startTime`, `endTime`, `transcript`,
`hookScore`, `reason`); missing source `@/lib/youtube`. -/
structure ClipSuggestion where
  title : String
  startTime : ℚ
  endTime : ℚ
  transcript : String
  hookScore : ℕ
  reason : String
deriving Repr, DecidableEq

/-- Lower bound of the clip-duration band (spec section 3: default roughly 15 s). -/
def minClipSeconds : ℚ := 15

/-- Upper bound of the clip-duration band (spec section 3: default roughly 75 s). -/
def maxClipSeconds : ℚ := 75

/-- Word-count limit used when punctuation is sparse (spec section 4.1 fallback). -/
def maxWordsPerChunk : ℕ := 30

/-- True for sentence-terminal punctuation (spec section 4.1). -/
def isSentenceTerminal (c : Char) : Bool := c == '.' || c == '!' || c == '?'

/-- Split a character stream into sentence-like chunks, breaking after
terminal punctuation (spec section 4.1). -/
def splitSentenceChunks : List Char → List Char → List (List Char)
  | [], acc => if acc.isEmpty then [] else [acc.reverse]
  | c :: rest, acc =>
    if isSentenceTerminal c then (c :: acc).reverse :: splitSentenceChunks rest []
    else splitSentenceChunks rest (c :: acc)

/-- Split a character stream into whitespace-separated words. -/
def splitWordsAux : List Char → List Char → List String
  | [], acc => if acc.isEmpty then [] else [String.mk acc.reverse]
  | c :: rest, acc =>
    if c.isWhitespace then
      if acc.isEmpty then splitWordsAux rest []
      else String.mk acc.reverse :: splitWordsAux rest []
    else splitWordsAux rest (c :: acc)

/-- The whitespace-separated words of a string. -/
def wordsOf (s : String) : List String := splitWordsAux s.toList []

/-- Take successive groups of at most `n` elements (fuel-bounded). -/
def chunkListAux (n : ℕ) : List α → ℕ → List (List α)
  | _, 0 => []
  | [], _ + 1 => []
  | l, fuel + 1 => l.take n :: chunkListAux n (l.drop n) fuel

/-- Split a list into chunks of at most `n` elements. -/
def chunkList (n : ℕ) (l : List α) : List (List α) := chunkListAux n l l.length

/-- Re-chunk oversized sentences into fixed word-count chunks
(spec section 4.1: fallback when punctuation is sparse). -/
def explodeChunks : List (List String) → List (List String)
  | [] => []
  | ws :: rest =>
    (if ws.length ≤ maxWordsPerChunk then [ws] else chunkList maxWordsPerChunk ws)
      ++ explodeChunks rest

/-- Modelled from the spec: sentence-like word chunks of a flat transcript
(spec section 4.1; missing source `@/lib/youtube`). -/
def sentenceWordChunks (transcript : String) : List (List String) :=
  (explodeChunks ((splitSentenceChunks transcript.toList []).map
    (fun cs => splitWordsAux cs []))).filter (fun ws => !ws.isEmpty)

/-- Modelled from the spec: assign synthetic, cumulative timings at an assumed
speaking rate of 2.5 words per second (spec section 4.1). -/
def assignCueTimes : ℚ → List (List String) → List TranscriptCue
  | _, [] => []
  | t, ws :: rest =>
    { text := String.intercalate " " ws, startSeconds := t,
      endSeconds := t + (ws.length : ℚ) * 2 / 5 }
      :: assignCueTimes (t + (ws.length : ℚ) * 2 / 5) rest

/-- Modelled from the spec: synthesize cues from a flat transcript string
(spec section 4.1; missing source `@/lib/youtube`). -/
def synthesizeCues (transcript : String) : List TranscriptCue :=
  assignCueTimes 0 (sentenceWordChunks transcript)

/-- Modelled from the spec: cue normalization — use supplied cues when present
(dropping malformed ones, spec section 7), otherwise synthesize from the flat
transcript (spec section 4.1; missing source `@/lib/youtube`). -/
def normalizeCues (transcript : String) (cues : List TranscriptCue) : List TranscriptCue :=
  if cues.isEmpty then synthesizeCues transcript
  else cues.filter (fun c => decide (c.startSeconds < c.endSeconds))

/-- Modelled from the spec: extend a window cue-by-cue while the cumulative
duration stays within the upper duration bound (spec section 4.2). -/
def extendWindow (startT : ℚ) : List TranscriptCue → List TranscriptCue
  | [] => []
  | c :: rest =>
    if c.endSeconds - startT ≤ maxClipSeconds then c :: extendWindow startT rest
    else []

/-- Modelled from the spec: start a candidate window at every cue boundary
(spec section 4.2; missing source `@/lib/youtube`). -/
def windowsFrom : List TranscriptCue → List (List TranscriptCue)
  | [] => []
  | c :: rest => extendWindow c.startSeconds (c :: rest) :: windowsFrom rest

/-- Start time of a window (start of its first cue). -/
def windowStart : List TranscriptCue → ℚ
  | [] => 0
  | c :: _ => c.startSeconds

/-- End time of a window (end of its last cue). -/
def windowEnd (w : List TranscriptCue) : ℚ :=
  match w.getLast? with
  | none => 0
  | some c => c.endSeconds

/-- Duration of a window. -/
def windowDuration (w : List TranscriptCue) : ℚ := windowEnd w - windowStart w

/-- Modelled from the spec: keep only non-empty windows whose duration lies
within the configured band (spec sections 4.2 and 3: windows outside the band
are discarded immediately, never scored). -/
def validWindows (cs : List TranscriptCue) : List (List TranscriptCue) :=
  (windowsFrom cs).filter (fun w =>
    !w.isEmpty && decide (minClipSeconds ≤ windowDuration w)
      && decide (windowDuration w ≤ maxClipSeconds))

/-- Does `needle` occur at the head of the second list? -/
def beginsWith : List Char → List Char → Bool
  | [], _ => true
  | _ :: _, [] => false
  | a :: as, b :: bs => a == b && beginsWith as bs

/-- Does `needle` occur anywhere inside the list? -/
def occursIn (needle : List Char) : List Char → Bool
  | [] => needle.isEmpty
  | c :: rest => beginsWith needle (c :: rest) || occursIn needle rest

/-- Substring test on strings. -/
def containsSub (needle hay : String) : Bool := occursIn needle.toList hay.toList

/-- Lower-case every character of a string. -/
def toLowerString (s : String) : String := String.mk (s.toList.map Char.toLower)

/-- Concatenated text of the cues of a window (spec section 3,
`transcriptExcerpt`). -/
def windowText (w : List TranscriptCue) : String :=
  String.intercalate " " (w.map TranscriptCue.text)

/-- Curiosity/question markers (spec section 4.3; lexicon is a policy). -/
def curiosityMarkers : List String := ["how", "why", "what happens", "?"]

/-- Superlative/extremity markers (spec section 4.3). -/
def superlativeMarkers : List String := ["best", "worst", "never", "always", "biggest"]

/-- Emotional-intensity markers (spec section 4.3). -/
def emotionalMarkers : List String :=
  ["amazing", "incredible", "shocking", "insane", "crazy", "unbelievable"]

/-- Direct-address markers (spec section 4.3). -/
def directAddressMarkers : List String := ["you", "your"]

/-- Does any marker of the lexicon occur in the (lower-cased) text? -/
def anyMarker (markers : List String) (lowerText : String) : Bool :=
  markers.any (fun m => containsSub m lowerText)

/-- Does the string contain a digit (numeric-specificity signal)? -/
def hasNumber (s : String) : Bool := s.toList.any Char.isDigit

/-- Windows starting at or before this offset get the position bonus
(spec section 4.3: bonus near the very start). -/
def earlyStartSeconds : ℚ := 10

/-- Modelled from the spec: the additive signal detectors, each firing at most
once per window, each yielding points and a reason phrase (spec section 4.3;
detector set and weights are a documented policy). -/
def hookSignals (isEarly : Bool) (text : String) : List (ℕ × String) :=
  let lower := toLowerString text
  (if anyMarker curiosityMarkers lower then
    [(3, "poses a curiosity-provoking question")] else [])
  ++ (if anyMarker superlativeMarkers lower then
    [(2, "uses superlative or extremity language")] else [])
  ++ (if hasNumber lower then [(2, "cites concrete numbers")] else [])
  ++ (if anyMarker emotionalMarkers lower then
    [(2, "contains emotional-intensity words")] else [])
  ++ (if anyMarker directAddressMarkers lower then
    [(1, "addresses the viewer directly")] else [])
  ++ (if isEarly then [(1, "positioned near the start of the video")] else [])

/-- Modelled from the spec: map the running point total onto the 1-5 scale by
fixed thresholds (spec section 4.3). -/
def pointsToScore (pts : ℕ) : ℕ :=
  if 8 ≤ pts then 5 else if 6 ≤ pts then 4
  else if 4 ≤ pts then 3 else if 2 ≤ pts then 2 else 1

/-- Placeholder title derived from the window text (spec section 3: `title`). -/
def titleFromText (text : String) : String :=
  String.intercalate " " ((wordsOf text).take 8)

/-- Modelled from the spec: score one duration-valid window into a
`ClipSuggestion` (spec section 4.3; missing source `@/lib/youtube`). -/
def mkSuggestion (w : List TranscriptCue) : ClipSuggestion :=
  let text := windowText w
  let signals := hookSignals (decide (windowStart w ≤ earlyStartSeconds)) text
  { title := titleFromText text
    startTime := windowStart w
    endTime := windowEnd w
    transcript := text
    hookScore := pointsToScore (signals.map Prod.fst).sum
    reason := if signals.isEmpty then "General interest content"
              else String.intercalate "; " (signals.map Prod.snd) }

/-- Ranking order: `hookScore` descending, then `startTime` ascending as the
deterministic tie-break (spec section 4.4). -/
def rankedBefore (a b : ClipSuggestion) : Bool :=
  decide (b.hookScore < a.hookScore)
    || (a.hookScore == b.hookScore && decide (a.startTime ≤ b.startTime))

/-- Insertion step of the ranking sort. -/
def insertRanked (c : ClipSuggestion) : List ClipSuggestion → List ClipSuggestion
  | [] => [c]
  | d :: rest => if rankedBefore c d then c :: d :: rest else d :: insertRanked c rest

/-- Modelled from the spec: sort windows by score descending with start-ascending
tie-break (spec section 4.4). -/
def sortRanked : List ClipSuggestion → List ClipSuggestion
  | [] => []
  | c :: rest => insertRanked c (sortRanked rest)

/-- Do the two half-open time windows `[startTime, endTime)` intersect? -/
def overlapsB (a b : ClipSuggestion) : Bool :=
  decide (a.startTime < b.endTime) && decide (b.startTime < a.endTime)

/-- Modelled from the spec: greedy interval scheduling — walk the ranked list,
accepting a window iff it overlaps no already-accepted window, stopping at
`k` accepted entries (spec section 4.4). -/
def selectGreedy (k : ℕ) (acc : List ClipSuggestion) :
    List ClipSuggestion → List ClipSuggestion
  | [] => acc
  | c :: rest =>
    if k ≤ acc.length then acc
    else if acc.any (fun a => overlapsB a c) then selectGreedy k acc rest
    else selectGreedy k (acc ++ [c]) rest

/-- Insertion step of the chronological sort. -/
def insertChrono (c : ClipSuggestion) : List ClipSuggestion → List ClipSuggestion
  | [] => [c]
  | d :: rest =>
    if c.startTime ≤ d.startTime then c :: d :: rest else d :: insertChrono c rest

/-- Modelled from the spec: emit the final list in chronological
(`startTime` ascending) order (spec section 4.4). -/
def sortChrono : List ClipSuggestion → List ClipSuggestion
  | [] => []
  | c :: rest => insertChrono c (sortChrono rest)

/-- Modelled from the spec: the clip-discovery engine
`analyzeTranscriptForClips` of the missing source `@/lib/youtube`
(spec sections 4.1-4.4, 6, 7): normalize cues, enumerate duration-valid
windows, score them, rank by score, select greedily without overlap up to
`maxClips`, and emit chronologically.  `maxClips ≤ 0` yields the empty list. -/
def analyzeTranscriptForClips (transcript : String) (cues : List TranscriptCue)
    (maxClips : ℤ) : List ClipSuggestion :=
  if maxClips ≤ 0 then []
  else if (normalizeCues transcript cues).isEmpty then []
  else sortChrono (selectGreedy maxClips.toNat []
    (sortRanked ((validWindows (normalizeCues transcript cues)).map mkSuggestion)))

/-- JavaScript string truthiness fallback: `a || b` on strings, where the empty
string is falsy (`src/app/api/youtube/clips/route.ts` lines 127 and 141). -/
def jsOr (a b : String) : String := if a = "" then b else a

/-- One clip object of the model's JSON reply, with the fields the prompt of
`src/app/api/youtube/clips/route.ts` (lines 75-91) requests; `transcript` is
optional because the reply may omit it. -/
structure ModelClip where
  originalTitle : String
  improvedTitle : String
  startTime : ℚ
  endTime : ℚ
  duration : ℚ
  hookScore : ℕ
  viralPotential : String
  reason : String
  strategy : String
  transcript : Option String
deriving Repr, DecidableEq

/-- Map with the element index, starting at `n`. -/
def mapWithIndexFrom (f : ℕ → α → β) : ℕ → List α → List β
  | _, [] => []
  | i, a :: rest => f i a :: mapWithIndexFrom f (i + 1) rest

/-- `Array.prototype.map((x, index) => ...)`. -/
def mapWithIndex (f : ℕ → α → β) (l : List α) : List β := mapWithIndexFrom f 0 l

/-- Strip leading and trailing whitespace (`String.prototype.trim`). -/
def trimString (s : String) : String :=
  String.mk (((s.toList.dropWhile Char.isWhitespace).reverse.dropWhile
    Char.isWhitespace).reverse)

/-- Group characters, breaking at each newline (empty segments kept). -/
def splitLinesAux : List Char → List Char → List (List Char)
  | [], acc => [acc.reverse]
  | c :: rest, acc =>
    if c == '\n' then acc.reverse :: splitLinesAux rest []
    else splitLinesAux rest (c :: acc)

/-- Split a string on newline characters (`String.prototype.split` at a
newline). -/
def splitLines (s : String) : List String :=
  (splitLinesAux s.toList []).map String.mk

/-- Does the trimmed line match the regular expression of one or more digits
followed by a dot, anchored at the start
(`src/app/api/youtube/clips/route.ts` line 135,
`src/app/api/youtube/process/route.ts` line 167)? -/
def isNumberedLine (line : String) : Bool :=
  let cs := (trimString line).toList
  !(cs.takeWhile Char.isDigit).isEmpty &&
    (match cs.dropWhile Char.isDigit with
     | '.' :: _ => true
     | _ => false)

/-- `line.replace(regex of leading digits, dot, whitespace, '').trim()` —
the replacement is anchored at the start of the untrimmed line
(`src/app/api/youtube/clips/route.ts` line 136,
`src/app/api/youtube/process/route.ts` line 172). -/
def stripLeadingNumber (line : String) : String :=
  let cs := line.toList
  let digits := cs.takeWhile Char.isDigit
  let rest := cs.dropWhile Char.isDigit
  trimString (String.mk
    (if digits.isEmpty then cs
     else match rest with
       | '.' :: tail => tail.dropWhile Char.isWhitespace
       | _ => cs))

/-- The fallback path's manually extracted titles
(`src/app/api/youtube/clips/route.ts` lines 134-136). -/
def extractImprovedTitles (reply : String) : List String :=
  ((splitLines reply).filter isNumberedLine).map stripLeadingNumber

/-- `clip.hookScore >= 4 ? HIGH : clip.hookScore >= 3 ? MEDIUM : LOW`
(`src/app/api/youtube/clips/route.ts` line 146). -/
def viralPotentialOf (hookScore : ℕ) : String :=
  if 4 ≤ hookScore then "HIGH" else if 3 ≤ hookScore then "MEDIUM" else "LOW"

/-- The constant strategy string of the fallback path
(`src/app/api/youtube/clips/route.ts` line 148). -/
def defaultStrategy : String := "Post during peak hours (7-9 PM), use trending hashtags"

/-- One clip of the fallback path, built from the engine candidate at `i`
(`src/app/api/youtube/clips/route.ts` lines 139-150). -/
def fallbackClip (improvedTitles : List String) (i : ℕ) (clip : ClipSuggestion) :
    ModelClip where
  originalTitle := clip.title
  improvedTitle := jsOr ((improvedTitles.get? i).getD "") clip.title
  startTime := clip.startTime
  endTime := clip.endTime
  duration := clip.endTime - clip.startTime
  hookScore := clip.hookScore
  viralPotential := viralPotentialOf clip.hookScore
  reason := clip.reason
  strategy := defaultStrategy
  transcript := some clip.transcript

/-- The fallback path when the model reply does not parse as JSON
(`src/app/api/youtube/clips/route.ts` lines 130-152). -/
def fallbackClips (reply : String) (sugs : List ClipSuggestion) : List ModelClip :=
  mapWithIndex (fallbackClip (extractImprovedTitles reply)) sugs

/-- The transcript re-assignment of the JSON-success path:
`clipSuggestions[index]?.transcript || enhancedClip.transcript || ''`
(`src/app/api/youtube/clips/route.ts` lines 124-129). -/
def reassignTranscripts (sugs : List ClipSuggestion) (mclips : List ModelClip) :
    List ModelClip :=
  mapWithIndex (fun i mc =>
    { mc with transcript := some (jsOr (((sugs.get? i).map
        ClipSuggestion.transcript).getD "") (jsOr (mc.transcript.getD "") "")) }) mclips

/-- Outcome of parsing the model's reply in the clips POST handler:
either `JSON.parse` succeeded (with or without a `clips` array), or it threw
and the raw reply text feeds the fallback path. -/
inductive ParsedReply where
  | ok (clips : Option (List ModelClip))
  | failed (text : String)
deriving Repr, DecidableEq

/-- The clip-enrichment step of the clips POST handler as a function of the
engine output and the parse outcome (`src/app/api/youtube/clips/route.ts`
lines 121-161; an absent `clips` array yields `[]` via
`enhancedClips.clips || []` on line 159). -/
def clipsEnrich (sugs : List ClipSuggestion) : ParsedReply → List ModelClip
  | .ok none => []
  | .ok (some mclips) => reassignTranscripts sugs mclips
  | .failed text => fallbackClips text sugs

/-- The title-rewrite loop of the process POST handler
(`src/app/api/youtube/process/route.ts` lines 170-177): for each numbered
reply line, strip the numbering and, when non-empty, overwrite the title of
the candidate at the same index. -/
def processApplyTitles (titles : List String) (sugs : List ClipSuggestion) :
    List ClipSuggestion :=
  mapWithIndex (fun i s =>
    match titles.get? i with
    | none => s
    | some line =>
      let t := stripLeadingNumber line
      if t = "" then s else { s with title := t }) sugs

/-- The clip-enrichment step of the process POST handler as a function of the
engine output and the model reply text (`src/app/api/youtube/process/route.ts`
lines 144-178; the model is only consulted when the engine returned clips). -/
def processEnrichClips (reply : String) (sugs : List ClipSuggestion) :
    List ClipSuggestion :=
  if sugs.length = 0 then sugs
  else processApplyTitles ((splitLines reply).filter isNumberedLine) sugs

/-- The engine invocation of the clips POST handler
(`src/app/api/youtube/clips/route.ts` line 29). -/
def clipsRouteEngineCall (transcript : String) : List ClipSuggestion :=
  analyzeTranscriptForClips transcript [] 8

/-- The engine invocation of the process POST handler
(`src/app/api/youtube/process/route.ts` line 141). -/
def processRouteEngineCall (transcript : String) : List ClipSuggestion :=
  analyzeTranscriptForClips transcript [] 6

/-! ### Helper lemmas -/

theorem insertChrono_perm (c : ClipSuggestion) (l : List ClipSuggestion) :
    List.Perm (insertChrono c l) (c :: l) := by
  induction l with
  | nil => exact List.Perm.refl _
  | cons d rest ih =>
    unfold insertChrono
    split
    · exact List.Perm.refl _
    · exact (ih.cons d).trans (List.Perm.swap c d rest)

theorem sortChrono_perm (l : List ClipSuggestion) : List.Perm (sortChrono l) l := by
  induction l with
  | nil => exact List.Perm.refl _
  | cons c rest ih => exact (insertChrono_perm c (sortChrono rest)).trans (ih.cons c)

theorem insertRanked_perm (c : ClipSuggestion) (l : List ClipSuggestion) :
    List.Perm (insertRanked c l) (c :: l) := by
  induction l with
  | nil => exact List.Perm.refl _
  | cons d rest ih =>
    unfold insertRanked
    split
    · exact List.Perm.refl _
    · exact (ih.cons d).trans (List.Perm.swap c d rest)

theorem sortRanked_perm (l : List ClipSuggestion) : List.Perm (sortRanked l) l := by
  induction l with
  | nil => exact List.Perm.refl _
  | cons c rest ih => exact (insertRanked_perm c (sortRanked rest)).trans (ih.cons c)

theorem mem_insertChrono {a c : ClipSuggestion} {l : List ClipSuggestion}
    (h : a ∈ insertChrono c l) : a = c ∨ a ∈ l :=
  List.mem_cons.mp ((insertChrono_perm c l).mem_iff.mp h)

theorem insertChrono_pairwise {c : ClipSuggestion} {l : List ClipSuggestion}
    (h : l.Pairwise (fun a b => a.startTime ≤ b.startTime)) :
    (insertChrono c l).Pairwise (fun a b => a.startTime ≤ b.startTime) := by
  induction l with
  | nil => simp [insertChrono]
  | cons d rest ih =>
    rw [List.pairwise_cons] at h
    obtain ⟨hd, hrest⟩ := h
    unfold insertChrono
    split
    · rename_i hc
      refine List.Pairwise.cons ?_ (List.Pairwise.cons hd hrest)
      intro x hx
      rcases List.mem_cons.mp hx with rfl | hx
      · exact hc
      · exact le_trans hc (hd x hx)
    · rename_i hc
      refine List.Pairwise.cons ?_ (ih hrest)
      intro x hx
      rcases mem_insertChrono hx with rfl | hx
      · exact le_of_not_le hc
      · exact hd x hx

theorem sortChrono_pairwise (l : List ClipSuggestion) :
    (sortChrono l).Pairwise (fun a b => a.startTime ≤ b.startTime) := by
  induction l with
  | nil => simp [sortChrono]
  | cons c rest ih => exact insertChrono_pairwise ih

theorem selectGreedy_mem {k : ℕ} :
    ∀ (l acc : List ClipSuggestion) {c : ClipSuggestion},
      c ∈ selectGreedy k acc l → c ∈ acc ∨ c ∈ l := by
  intro l
  induction l with
  | nil =>
    intro acc c h
    exact Or.inl (by simpa [selectGreedy] using h)
  | cons d rest ih =>
    intro acc c h
    unfold selectGreedy at h
    split at h
    · exact Or.inl h
    · split at h
      · rcases ih acc h with h1 | h1
        · exact Or.inl h1
        · exact Or.inr (List.mem_cons_of_mem _ h1)
      · rcases ih (acc ++ [d]) h with h1 | h1
        · rcases List.mem_append.mp h1 with h2 | h2
          · exact Or.inl h2
          · exact Or.inr (List.mem_cons.mpr (Or.inl (by simpa using h2)))
        · exact Or.inr (List.mem_cons_of_mem _ h1)

theorem selectGreedy_length {k : ℕ} :
    ∀ (l acc : List ClipSuggestion), acc.length ≤ k →
      (selectGreedy k acc l).length ≤ k := by
  intro l
  induction l with
  | nil => intro acc h; simpa [selectGreedy] using h
  | cons d rest ih =>
    intro acc h
    unfold selectGreedy
    split
    · exact h
    · rename_i hk
      split
      · exact ih acc h
      · exact ih (acc ++ [d]) (by simpa using Nat.lt_of_not_le hk)

theorem selectGreedy_pairwise {k : ℕ} :
    ∀ (l acc : List ClipSuggestion),
      acc.Pairwise (fun a b => overlapsB a b = false) →
      (selectGreedy k acc l).Pairwise (fun a b => overlapsB a b = false) := by
  intro l
  induction l with
  | nil => intro acc h; simpa [selectGreedy] using h
  | cons d rest ih =>
    intro acc h
    unfold selectGreedy
    split
    · exact h
    · split
      · exact ih acc h
      · rename_i hk hno
        refine ih (acc ++ [d]) ?_
        rw [List.pairwise_append]
        refine ⟨h, List.pairwise_singleton _ _, ?_⟩
        intro a ha b hb
        rcases List.mem_singleton.mp hb with rfl
        by_contra hne
        have htrue : overlapsB a b = true := by
          cases hov : overlapsB a b
          · exact absurd hov hne
          · rfl
        exact hno (List.any_eq_true.mpr ⟨a, ha, htrue⟩)

theorem mapWithIndexFrom_get? (f : ℕ → α → β) :
    ∀ (l : List α) (n i : ℕ),
      (mapWithIndexFrom f n l).get? i = (l.get? i).map (f (n + i)) := by
  intro l
  induction l with
  | nil => intro n i; simp [mapWithIndexFrom]
  | cons a rest ih =>
    intro n i
    cases i with
    | zero => simp [mapWithIndexFrom]
    | succ j =>
      have h := ih (n + 1) j
      simpa [mapWithIndexFrom, Nat.add_assoc, Nat.add_comm 1 j] using h

theorem mapWithIndex_get? (f : ℕ → α → β) (l : List α) (i : ℕ) :
    (mapWithIndex f l).get? i = (l.get? i).map (f i) := by
  simpa [mapWithIndex] using mapWithIndexFrom_get? f l 0 i

theorem mapWithIndexFrom_length (f : ℕ → α → β) :
    ∀ (l : List α) (n : ℕ), (mapWithIndexFrom f n l).length = l.length := by
  intro l
  induction l with
  | nil => intro n; rfl
  | cons a rest ih => intro n; simp [mapWithIndexFrom, ih]

theorem mapWithIndex_length (f : ℕ → α → β) (l : List α) :
    (mapWithIndex f l).length = l.length := mapWithIndexFrom_length f l 0

theorem overlapsB_eq_false_iff {a b : ClipSuggestion} :
    overlapsB a b = false ↔ (b.endTime ≤ a.startTime ∨ a.endTime ≤ b.startTime) := by
  rw [Bool.eq_false_iff]
  simp only [overlapsB, ne_eq, Bool.and_eq_true, decide_eq_true_eq, not_and_or, not_lt]

theorem mem_validWindows {w : List TranscriptCue} {cs : List TranscriptCue}
    (h : w ∈ validWindows cs) :
    minClipSeconds ≤ windowDuration w ∧ windowDuration w ≤ maxClipSeconds := by
  have hp := (List.mem_filter.mp h).2
  simp only [Bool.and_eq_true, decide_eq_true_eq] at hp
  exact ⟨hp.1.2, hp.2⟩

theorem mkSuggestion_startTime (w : List TranscriptCue) :
    (mkSuggestion w).startTime = windowStart w := rfl

theorem mkSuggestion_endTime (w : List TranscriptCue) :
    (mkSuggestion w).endTime = windowEnd w := rfl

theorem viralPotentialOf_spec (hs : ℕ) :
    (viralPotentialOf hs = "HIGH" ↔ 4 ≤ hs) ∧
    (viralPotentialOf hs = "MEDIUM" ↔ hs = 3) ∧
    (viralPotentialOf hs = "LOW" ↔ hs < 3) := by
  unfold viralPotentialOf
  split
  · rename_i h1
    refine ⟨⟨fun _ => h1, fun _ => rfl⟩, ⟨fun h => absurd h (by decide), fun h => by omega⟩,
      ⟨fun h => absurd h (by decide), fun h => by omega⟩⟩
  · rename_i h1
    split
    · rename_i h2
      refine ⟨⟨fun h => absurd h (by decide), fun h => absurd h h1⟩,
        ⟨fun _ => by omega, fun _ => rfl⟩,
        ⟨fun h => absurd h (by decide), fun h => by omega⟩⟩
    · rename_i h2
      refine ⟨⟨fun h => absurd h (by decide), fun h => absurd h h1⟩,
        ⟨fun h => absurd h (by decide), fun h => by omega⟩,
        ⟨fun _ => by omega, fun _ => rfl⟩⟩

/-! ### Claim theorems -/

/-- Claim C2: for every input (transcript, cue sequence, maxClips), no two
candidates returned by `analyzeTranscriptForClips` have intersecting
half-open time intervals: for every pair, one ends at or before the other
starts. -/
theorem analyze_pairwise_disjoint (t : String) (cues : List TranscriptCue) (m : ℤ) :
    (analyzeTranscriptForClips t cues m).Pairwise
      (fun a b => a.endTime ≤ b.startTime ∨ b.endTime ≤ a.startTime) := by
  unfold analyzeTranscriptForClips
  split
  · simp
  · split
    · simp
    · have hsel := selectGreedy_pairwise (k := Int.toNat m)
        (sortRanked ((validWindows (normalizeCues t cues)).map mkSuggestion)) []
        (List.Pairwise.nil)
      have hperm := sortChrono_perm (selectGreedy (Int.toNat m) []
        (sortRanked ((validWindows (normalizeCues t cues)).map mkSuggestion)))
      have hsym : ∀ {x y : ClipSuggestion},
          (x.endTime ≤ y.startTime ∨ y.endTime ≤ x.startTime) →
          (y.endTime ≤ x.startTime ∨ x.endTime ≤ y.startTime) := fun h => h.symm
      exact (List.Perm.pairwise_iff hsym hperm).mpr
        (hsel.imp (fun h => (overlapsB_eq_false_iff.mp h).symm))

/-- Claim C4: for every input, the candidate list returned by
`analyzeTranscriptForClips` is sorted in ascending `startTime` order
(chronological order). -/
theorem analyze_chronological (t : String) (cues : List TranscriptCue) (m : ℤ) :
    (analyzeTranscriptForClips t cues m).Pairwise
      (fun a b => a.startTime ≤ b.startTime) := by
  unfold analyzeTranscriptForClips
  split
  · simp
  · split
    · simp
    · exact sortChrono_pairwise _

/-- Claim C3 (amended): for every input, the number of returned candidates is
at most `max maxClips 0` — in particular at most `maxClips` whenever
`maxClips ≥ 0`; a negative `maxClips` yields the empty list, whose length 0
still exceeds the negative bound. -/
theorem analyze_length_le (t : String) (cues : List TranscriptCue) (m : ℤ) :
    (analyzeTranscriptForClips t cues m).length ≤ m.toNat := by
  unfold analyzeTranscriptForClips
  split
  · simp
  · split
    · simp
    · rw [(sortChrono_perm _).length_eq]
      exact selectGreedy_length _ [] (by simp)

/-- Claim C3 counterexample: at `maxClips = -1` the engine returns the empty
list, whose length 0 is not at most `-1`, so the unconditional claim
"length ≤ maxClips" fails for negative `maxClips`. -/
theorem analyze_length_counterexample :
    ¬ (((analyzeTranscriptForClips "" [] (-1)).length : ℤ) ≤ -1) := by
  with_unfolding_all decide

/-- Claim C5: every candidate returned by `analyzeTranscriptForClips` has a
duration `endTime - startTime` inside the configured band
`[minClipSeconds, maxClipSeconds]` = [15, 75]. -/
theorem analyze_duration_band (t : String) (cues : List TranscriptCue) (m : ℤ)
    (c : ClipSuggestion) (hc : c ∈ analyzeTranscriptForClips t cues m) :
    minClipSeconds ≤ c.endTime - c.startTime ∧
      c.endTime - c.startTime ≤ maxClipSeconds := by
  unfold analyzeTranscriptForClips at hc
  split at hc
  · simp at hc
  · split at hc
    · simp at hc
    · have h1 := (sortChrono_perm _).mem_iff.mp hc
      rcases selectGreedy_mem _ [] h1 with h2 | h2
      · simp at h2
      · have h3 := (sortRanked_perm _).mem_iff.mp h2
        rcases List.mem_map.mp h3 with ⟨w, hw, rfl⟩
        have hband := mem_validWindows hw
        rw [mkSuggestion_startTime, mkSuggestion_endTime]
        exact hband

/-- Claim C5 witness: a single 20-second cue yields one candidate whose
duration lies in the band. -/
theorem analyze_duration_band_witness :
    (⟨"hello there friend", 20, 40, "hello there friend", 1,
        "General interest content"⟩ : ClipSuggestion)
      ∈ analyzeTranscriptForClips "" [⟨"hello there friend", 20, 40⟩] 3 ∧
    (minClipSeconds ≤ (⟨"hello there friend", 20, 40, "hello there friend", 1,
        "General interest content"⟩ : ClipSuggestion).endTime -
        (⟨"hello there friend", 20, 40, "hello there friend", 1,
        "General interest content"⟩ : ClipSuggestion).startTime ∧
      (⟨"hello there friend", 20, 40, "hello there friend", 1,
        "General interest content"⟩ : ClipSuggestion).endTime -
        (⟨"hello there friend", 20, 40, "hello there friend", 1,
        "General interest content"⟩ : ClipSuggestion).startTime ≤ maxClipSeconds) :=
  ⟨by with_unfolding_all decide,
   analyze_duration_band "" [⟨"hello there friend", 20, 40⟩] 3 _
     (by with_unfolding_all decide)⟩

/-- Claim C6: the engine on an empty transcript and empty cue sequence returns
the empty list for every `maxClips`; being a total function of its inputs, it
cannot raise. -/
theorem analyze_empty_input (m : ℤ) : analyzeTranscriptForClips "" [] m = [] := by
  unfold analyzeTranscriptForClips
  split
  · rfl
  · split
    · rfl
    · rename_i h
      exact absurd rfl h

/-- Claim C7: for every transcript and cue sequence, a non-positive `maxClips`
yields the empty list rather than an error. -/
theorem analyze_nonpositive_maxClips (t : String) (cues : List TranscriptCue)
    (m : ℤ) (h : m ≤ 0) : analyzeTranscriptForClips t cues m = [] := by
  unfold analyzeTranscriptForClips
  rw [if_pos h]

/-- Claim C7 witness: at `maxClips = -1` with a non-trivial transcript the
engine returns the empty list. -/
theorem analyze_nonpositive_maxClips_witness :
    ((-1 : ℤ) ≤ 0) ∧
      analyzeTranscriptForClips "Some transcript." [] (-1) = [] :=
  ⟨by decide, analyze_nonpositive_maxClips "Some transcript." [] (-1) (by decide)⟩

/-- Claim C8: both route handlers call the engine with an empty cue sequence —
`maxClips = 8` in the clips route and `6` in the process route — and with
empty cues the normalization step always synthesizes timing from the flat
transcript string. -/
theorem routes_call_engine_with_empty_cues (t : String) :
    clipsRouteEngineCall t = analyzeTranscriptForClips t [] 8 ∧
    processRouteEngineCall t = analyzeTranscriptForClips t [] 6 ∧
    normalizeCues t [] = synthesizeCues t :=
  ⟨rfl, rfl, rfl⟩

theorem clipsEnrich_failed (sugs : List ClipSuggestion) (text : String) :
    clipsEnrich sugs (.failed text) = fallbackClips text sugs := rfl

theorem clipsEnrich_ok_some (sugs : List ClipSuggestion) (mclips : List ModelClip) :
    clipsEnrich sugs (.ok (some mclips)) = reassignTranscripts sugs mclips := rfl

/-- Claim C9: when the model reply fails to parse as JSON, the clips handler
returns the engine candidates mapped element-wise — `originalTitle`,
`startTime`, `endTime`, `hookScore`, `reason` and `transcript` copied
verbatim, `duration = endTime - startTime`, and `viralPotential` classified
HIGH iff `hookScore ≥ 4`, MEDIUM iff `hookScore = 3`, LOW otherwise. -/
theorem clips_fallback_enrichment_spec (text : String) (sugs : List ClipSuggestion) :
    (clipsEnrich sugs (.failed text)).length = sugs.length ∧
    ∀ (i : ℕ) (c : ModelClip) (s : ClipSuggestion),
      (clipsEnrich sugs (.failed text)).get? i = some c →
      sugs.get? i = some s →
      c.originalTitle = s.title ∧ c.startTime = s.startTime ∧
      c.endTime = s.endTime ∧ c.duration = s.endTime - s.startTime ∧
      c.hookScore = s.hookScore ∧ c.reason = s.reason ∧
      c.transcript = some s.transcript ∧
      (c.viralPotential = "HIGH" ↔ 4 ≤ s.hookScore) ∧
      (c.viralPotential = "MEDIUM" ↔ s.hookScore = 3) ∧
      (c.viralPotential = "LOW" ↔ s.hookScore < 3) := by
  constructor
  · rw [clipsEnrich_failed]
    exact mapWithIndex_length _ sugs
  · intro i c s hc hs
    rw [clipsEnrich_failed] at hc
    unfold fallbackClips at hc
    rw [mapWithIndex_get?, hs] at hc
    obtain rfl : fallbackClip (extractImprovedTitles text) i s = c := by
      simpa using hc
    exact ⟨rfl, rfl, rfl, rfl, rfl, rfl, rfl,
      (viralPotentialOf_spec s.hookScore).1,
      (viralPotentialOf_spec s.hookScore).2.1,
      (viralPotentialOf_spec s.hookScore).2.2⟩

/-- Claim C9 witness: one candidate with hook score 4 and a reply without
numbered lines is mapped to the expected fallback clip. -/
theorem clips_fallback_enrichment_witness :
    ((clipsEnrich [⟨"t", 0, 20, "w", 4, "r"⟩]
        (ParsedReply.failed "model text")).get? 0 =
      some ⟨"t", "t", 0, 20, 20, 4, "HIGH", "r", defaultStrategy, some "w"⟩) ∧
    (([(⟨"t", 0, 20, "w", 4, "r"⟩ : ClipSuggestion)]).get? 0 =
      some ⟨"t", 0, 20, "w", 4, "r"⟩) ∧
    ((⟨"t", "t", 0, 20, 20, 4, "HIGH", "r", defaultStrategy,
        some "w"⟩ : ModelClip).viralPotential = "HIGH" ↔
      4 ≤ (⟨"t", 0, 20, "w", 4, "r"⟩ : ClipSuggestion).hookScore) :=
  ⟨by with_unfolding_all decide, rfl,
   ((clips_fallback_enrichment_spec "model text" [⟨"t", 0, 20, "w", 4, "r"⟩]).2 0
      ⟨"t", "t", 0, 20, 20, 4, "HIGH", "r", defaultStrategy, some "w"⟩
      ⟨"t", 0, 20, "w", 4, "r"⟩
      (by with_unfolding_all decide) rfl).2.2.2.2.2.2.2.1⟩

/-- Claim C10 (amended): in the JSON-success path every returned clip has a
defined transcript string, assigned by position under JavaScript truthiness:
the engine candidate at the same index wins only when it exists AND its
transcript is non-empty; otherwise the model-supplied transcript when present
and non-empty; otherwise the empty string. -/
theorem clips_json_transcript_reassignment (sugs : List ClipSuggestion)
    (mclips : List ModelClip) (i : ℕ) :
    (clipsEnrich sugs (.ok (some mclips))).length = mclips.length ∧
    ((clipsEnrich sugs (.ok (some mclips))).get? i).map ModelClip.transcript =
      (mclips.get? i).map (fun mc =>
        some (jsOr (((sugs.get? i).map ClipSuggestion.transcript).getD "")
          (jsOr (mc.transcript.getD "") ""))) ∧
    (∀ (c : ModelClip) (s : ClipSuggestion),
      (clipsEnrich sugs (.ok (some mclips))).get? i = some c →
      sugs.get? i = some s → s.transcript ≠ "" →
      c.transcript = some s.transcript) := by
  refine ⟨?_, ?_, ?_⟩
  · rw [clipsEnrich_ok_some]
    exact mapWithIndex_length _ mclips
  · rw [clipsEnrich_ok_some]
    unfold reassignTranscripts
    rw [mapWithIndex_get?]
    cases mclips.get? i <;> rfl
  · intro c s hc hs hne
    rw [clipsEnrich_ok_some] at hc
    unfold reassignTranscripts at hc
    rw [mapWithIndex_get?] at hc
    cases hm : mclips.get? i with
    | none => rw [hm] at hc; exact absurd hc (by simp)
    | some mc =>
      rw [hm] at hc
      obtain rfl := Option.some.inj hc
      have hs2 : sugs[i]? = some s := by
        rw [← List.get?_eq_getElem?]
        exact hs
      simp [hs2, jsOr, hne]

/-- Claim C10 witness: a candidate with non-empty transcript overrides the
model-supplied transcript at the same index. -/
theorem clips_json_transcript_reassignment_witness :
    ((clipsEnrich [⟨"t", 0, 20, "w", 3, "r"⟩]
        (ParsedReply.ok (some [⟨"o", "i", 5, 30, 25, 5, "HIGH", "r2", "s",
          some "mt"⟩]))).get? 0 =
      some ⟨"o", "i", 5, 30, 25, 5, "HIGH", "r2", "s", some "w"⟩) ∧
    (([(⟨"t", 0, 20, "w", 3, "r"⟩ : ClipSuggestion)]).get? 0 =
      some ⟨"t", 0, 20, "w", 3, "r"⟩) ∧
    (("w" : String) ≠ "") ∧
    ((⟨"o", "i", 5, 30, 25, 5, "HIGH", "r2", "s",
        some "w"⟩ : ModelClip).transcript =
      some (⟨"t", 0, 20, "w", 3, "r"⟩ : ClipSuggestion).transcript) :=
  ⟨by with_unfolding_all decide, rfl, by decide,
   (clips_json_transcript_reassignment [⟨"t", 0, 20, "w", 3, "r"⟩]
      [⟨"o", "i", 5, 30, 25, 5, "HIGH", "r2", "s", some "mt"⟩] 0).2.2
      ⟨"o", "i", 5, 30, 25, 5, "HIGH", "r2", "s", some "w"⟩
      ⟨"t", 0, 20, "w", 3, "r"⟩
      (by with_unfolding_all decide) rfl (by decide)⟩

/-- Claim C10 counterexample: the code tests JavaScript truthiness, not
existence — when the engine candidate at the index exists but its transcript
is the empty string, the model-supplied transcript is used instead of the
candidate's, contradicting the claim as stated. -/
theorem clips_json_transcript_truthiness_cex :
    ((clipsEnrich [⟨"t", 0, 20, "", 3, "r"⟩]
        (ParsedReply.ok (some [⟨"o", "i", 0, 20, 20, 3, "LOW", "r", "s",
          some "mt"⟩]))).map ModelClip.transcript = [some "mt"]) ∧
    (([(⟨"t", 0, 20, "", 3, "r"⟩ : ClipSuggestion)]).map
        ClipSuggestion.transcript = [""]) := by
  constructor
  · with_unfolding_all decide
  · rfl

/-- Claim C1 (amended): the process route's enrichment alters only the
`title` field, preserving `startTime`, `endTime`, `transcript`, `hookScore`
and `reason`; the clips route preserves `startTime`, `endTime` and
`transcript` only on its fallback path — on the JSON-success path
`startTime` and `endTime` are taken verbatim from the model's reply and are
not checked against the engine candidates. -/
theorem enrichment_field_preservation (reply text : String)
    (sugs : List ClipSuggestion) (mclips : List ModelClip) (i : ℕ) :
    ((processEnrichClips reply sugs).get? i).map
        (fun c => (c.startTime, c.endTime, c.transcript, c.hookScore, c.reason)) =
      (sugs.get? i).map
        (fun s => (s.startTime, s.endTime, s.transcript, s.hookScore, s.reason)) ∧
    ((clipsEnrich sugs (.failed text)).get? i).map
        (fun c => (c.startTime, c.endTime, c.transcript)) =
      (sugs.get? i).map (fun s => (s.startTime, s.endTime, some s.transcript)) ∧
    ((clipsEnrich sugs (.ok (some mclips))).get? i).map
        (fun c => (c.startTime, c.endTime)) =
      (mclips.get? i).map (fun mc => (mc.startTime, mc.endTime)) := by
  refine ⟨?_, ?_, ?_⟩
  · unfold processEnrichClips
    split
    · rfl
    · unfold processApplyTitles
      rw [mapWithIndex_get?]
      cases sugs.get? i with
      | none => rfl
      | some s =>
        simp only [Option.map_some']
        cases (((splitLines reply).filter isNumberedLine).get? i) with
        | none => rfl
        | some line =>
          by_cases h : stripLeadingNumber line = "" <;> simp [h]
  · rw [clipsEnrich_failed]
    unfold fallbackClips
    rw [mapWithIndex_get?]
    cases sugs.get? i <;> rfl
  · rw [clipsEnrich_ok_some]
    unfold reassignTranscripts
    rw [mapWithIndex_get?]
    cases mclips.get? i <;> rfl

/-- Claim C1 counterexample: on the JSON-success path of the clips route the
enriched clip's `startTime` is the model reply's value (5), not the engine
candidate's (0) — the enrichment step does not preserve the engine's time
selection, contradicting the claim as stated. -/
theorem clips_enrichment_rewrites_times_cex :
    ((clipsEnrich [⟨"t", 0, 20, "w", 3, "r"⟩]
        (ParsedReply.ok (some [⟨"o", "i", 5, 30, 25, 5, "HIGH", "r2", "s",
          some "mt"⟩]))).map ModelClip.startTime = [5]) ∧
    (([(⟨"t", 0, 20, "w", 3, "r"⟩ : ClipSuggestion)]).map
        ClipSuggestion.startTime = [0]) := by
  constructor
  · with_unfolding_all decide
  · rfl
